import Mathlib

/-!
# Verification of the LLM test-automation pipeline

Shallow embedding of the locator reconciliation and code-generation
pipeline of the repository (files `utils.py`, `ollama_utils.py`,
`locator_extractor_refactored.py`, `gherkin_generator_refactored.py`,
`gherkin_to_test_ai_refactored.py`, `Backupcodes/pom_generator_backup.py`).

Python strings are modelled as Lean `String` values (operated on through
their `List Char` data).  Python's `str.lower` and the regex word class
`\W` are modelled on the ASCII fragment, matching the character sets the
pipeline actually manipulates.  A missing dictionary key whose value is
only ever tested for truthiness or used as a string is modelled as `""`
(both are falsy under `if not d.get(k)`).
-/

namespace TestAutomation

/-- ASCII model of Python `str.lower` applied character-wise
(`'A'..'Z'` are code points 65-90, lower-cased by adding 32). -/
def pyLower (c : Char) : Char :=
  if 65 ≤ c.toNat ∧ c.toNat ≤ 90 then Char.ofNat (c.toNat + 32) else c

/-- A regex word character (`\w`): ASCII letter, digit or underscore
(code points 97-122, 65-90, 48-57 and `'_'`). -/
def isWordChar (c : Char) : Bool :=
  (97 ≤ c.toNat ∧ c.toNat ≤ 122) ∨ (65 ≤ c.toNat ∧ c.toNat ≤ 90) ∨
    (48 ≤ c.toNat ∧ c.toNat ≤ 57) ∨ c = '_'

/-- A character the sanitizer may emit: ASCII lower-case letter
(97-122), digit (48-57) or underscore — the class `[a-z0-9_]` of the
spec's `^_?[a-z0-9_]+$`. -/
def isSanChar (c : Char) : Bool :=
  (97 ≤ c.toNat ∧ c.toNat ≤ 122) ∨ (48 ≤ c.toNat ∧ c.toNat ≤ 57) ∨ c = '_'

/-- Python `s.strip(chars)` on char lists: drop the matching run from the
right, then from the left. -/
def stripWhile (p : Char → Bool) (cs : List Char) : List Char :=
  ((cs.reverse.dropWhile p).reverse).dropWhile p

/-- ASCII whitespace, as stripped by Python's default `str.strip()`. -/
def isPyWs (c : Char) : Bool :=
  c = ' ' ∨ c = '\t' ∨ c = '\n' ∨ c = '\r' ∨ c = '\x0b' ∨ c = '\x0c'

/-- Python `s.strip()` (default whitespace stripping) on strings. -/
def pyStrip (s : String) : String := String.mk (stripWhile isPyWs s.data)

/-- Worker for `re.sub(r'\W+', '_', s)`: `inRun` records whether the
previous character belonged to a non-word run (which has already
contributed its single underscore). -/
def collapseAux : Bool → List Char → List Char
  | _, [] => []
  | inRun, c :: cs =>
    if isWordChar c then c :: collapseAux false cs
    else if inRun then collapseAux true cs
    else '_' :: collapseAux true cs

/-- `re.sub(r'\W+', '_', s)`: replace every maximal run of non-word
characters by a single underscore. -/
def collapseNonWord (cs : List Char) : List Char := collapseAux false cs

/-- `category.lower().replace(' ', '_')` prefixed by `unnamed_`, the
fallback name in `sanitize_identifier_for_method_name` (`utils.py`). -/
def fallbackName (category : String) : String :=
  "unnamed_" ++ String.mk ((category.data.map pyLower).map
    (fun c => if c = ' ' then '_' else c))

/-- Embedding of `utils.sanitize_identifier_for_method_name`:
lower-case, collapse non-word runs to `_`, strip `_` from both ends,
fall back to `unnamed_<category>` when empty, prepend `_` when the
result starts with a digit. -/
def sanitize_identifier_for_method_name (raw category : String) : String :=
  if raw = "" then fallbackName category
  else
    let sane1 := collapseNonWord (raw.data.map pyLower)
    let sane2 := stripWhile (fun c => c = '_') sane1
    let sane3 := if sane2 = [] then (fallbackName category).data else sane2
    String.mk (if (sane3.headD ' ').isDigit then '_' :: sane3 else sane3)

/-- The sanitizer applied with its default fallback category
(`category_for_fallback="element"`). -/
def sanitize (raw : String) : String :=
  sanitize_identifier_for_method_name raw "element"

/-- `collapseAux` with the regex word class supplied by the caller:
Python's `\w` is a library behavior (Unicode-aware), so the collapse of
`\W+` runs is parametric in the classifier `w`. -/
def collapseAuxWith (w : Char → Bool) : Bool → List Char → List Char
  | _, [] => []
  | inRun, c :: cs =>
    if w c then c :: collapseAuxWith w false cs
    else if inRun then collapseAuxWith w true cs
    else '_' :: collapseAuxWith w true cs

/-- `fallbackName` with `str.lower` supplied by the caller. -/
def fallbackNameWith (low : Char → Char) (category : String) : String :=
  "unnamed_" ++ String.mk ((category.data.map low).map
    (fun c => if c = ' ' then '_' else c))

/-- `utils.sanitize_identifier_for_method_name` with the two library
behaviors it invokes — the regex word class `\w` (`w`) and `str.lower`
(`low`) — supplied by the caller.  Instantiating both at their ASCII
fragments recovers `sanitize_identifier_for_method_name`
(`sanitizeWith_ascii`); instantiating `w` at a classifier that agrees
with Python's Unicode-aware `\w` on the characters of a given input
mirrors the program exactly on that input. -/
def sanitizeWith (w : Char → Bool) (low : Char → Char) (raw category : String) :
    String :=
  if raw = "" then fallbackNameWith low category
  else
    let sane1 := collapseAuxWith w false (raw.data.map low)
    let sane2 := stripWhile (fun c => c = '_') sane1
    let sane3 := if sane2 = [] then (fallbackNameWith low category).data else sane2
    String.mk (if (sane3.headD ' ').isDigit then '_' :: sane3 else sane3)

/-- Python's `\w` restricted to the characters relevant to the input
`"café"`: all ASCII word characters plus `'é'` (U+00E9, a lower-case
letter, which Python's Unicode-aware `\w` matches, so `re.sub(r'\W+',
'_', …)` keeps it).  This classifier agrees with Python's on every
character of `"café"`; `pyLower` likewise agrees with `str.lower`
there, since `'é'.lower() == 'é'`. -/
def wordCharWithEacute (c : Char) : Bool := isWordChar c || c = 'é'

/-- A LocatorRecord: one oracle-supplied element descriptor.  A missing
JSON key is modelled as `""` (both are falsy under the `.get` checks the
pipeline performs). -/
structure Locator where
  identifier : String
  category : String
  xpath : String
  css_selector : String
deriving DecidableEq, Repr

/-- The validation/dedup loop of `extract_locators`
(`locator_extractor_refactored.py`, lines 61-71): drop an entry whose
identifier is empty or already seen; drop an entry whose `xpath` is
empty **or** whose `css_selector` is empty; otherwise accept it and
record its identifier as seen. -/
def extractValidLoop : List Locator → List String → List Locator
  | [], _ => []
  | l :: rest, seen =>
    if l.identifier = "" ∨ l.identifier ∈ seen then extractValidLoop rest seen
    else if l.xpath = "" ∨ l.css_selector = "" then extractValidLoop rest seen
    else l :: extractValidLoop rest (l.identifier :: seen)

/-- `extract_locators`' validation of the oracle's record list, starting
from an empty `seen` set. -/
def extractLocatorsValidate (locators : List Locator) : List Locator :=
  extractValidLoop locators []

/-- The validation/dedup loop of `generate_pom`
(`Backupcodes/pom_generator_backup.py`, lines 50-70): drop an entry whose
identifier is empty or already seen; drop an entry only when **both**
`xpath` and `css_selector` are empty; otherwise accept. -/
def pomValidLoop : List Locator → List String → List Locator
  | [], _ => []
  | l :: rest, seen =>
    if l.identifier = "" ∨ l.identifier ∈ seen then pomValidLoop rest seen
    else if l.xpath = "" ∧ l.css_selector = "" then pomValidLoop rest seen
    else l :: pomValidLoop rest (l.identifier :: seen)

/-- `generate_pom`'s validation of the oracle's record list. -/
def pomValidate (locators : List Locator) : List Locator :=
  pomValidLoop locators []

/-- Decimal digit character for `d < 10`. -/
def digitChar (d : Nat) : Char := Char.ofNat (48 + d)

/-- Decimal digits of `m` (most significant first; empty for `0`),
with structural fuel: any `fuel ≥ m` yields the digits of `m`
(`natDigitsFuel_irrel`), and `natDigits` uses `fuel = m`. -/
def natDigitsFuel : Nat → Nat → List Char
  | 0, _ => []
  | _ + 1, 0 => []
  | fuel + 1, m + 1 =>
    natDigitsFuel fuel ((m + 1) / 10) ++ [digitChar ((m + 1) % 10)]

/-- Decimal digits of `n` (most significant first; empty for `0`). -/
def natDigits (n : Nat) : List Char := natDigitsFuel n n

/-- Standard decimal rendering of a natural number, modelling Python's
`f"{count}"` interpolation of an `int`. -/
def natDecimal (n : Nat) : String :=
  if n = 0 then "0" else String.mk (natDigits n)

/-- The collision-resolution candidate `f"{base}_{count}"` from
`generate_pom` (lines 133-137). -/
def suffixCandidate (base : String) (count : Nat) : String :=
  base ++ "_" ++ natDecimal count

/-- The `while actual_method_name_part in generated_method_names` loop of
`generate_pom`, unrolled with explicit fuel.  The fuel
`used.length + 1` is always sufficient (`resolveLoop_not_mem`), so the
fuel-exhausted branch is unreachable. -/
def resolveLoop (base : String) (used : List String) : Nat → Nat → String
  | count, 0 => suffixCandidate base count
  | count, fuel + 1 =>
    if suffixCandidate base count ∈ used then resolveLoop base used (count + 1) fuel
    else suffixCandidate base count

/-- Collision resolution of `generate_pom` (lines 133-138): keep the
sanitized base name if it is unused, otherwise append `_1`, `_2`, …
until the candidate is not among the already-generated names. -/
def resolveName (base : String) (used : List String) : String :=
  if base ∈ used then resolveLoop base used 1 (used.length + 1) else base

/-- `locator_value.replace("'", "\\'")` from `generate_pom` (line 147). -/
def escapeSingleQuotes (s : String) : String :=
  String.mk ((s.data.map (fun c => if c = '\'' then ['\\', '\''] else [c])).flatten)

/-- One statement of a generated accessor method body, mirroring the
f-string templates of `generate_pom` (lines 150-198) line by line. -/
inductive Stmt where
  /-- the `logging.debug(...)` line -/
  | logDebug
  /-- `self.wait.until(EC.presence_of_element_located((By.XPATH, xpath)))` -/
  | waitPresence (xpath : String)
  /-- `self.wait.until(EC.element_to_be_clickable((By.XPATH, xpath)))` -/
  | waitClickable (xpath : String)
  /-- `element.clear()` -/
  | clearContent
  /-- `element.send_keys(param)` -/
  | sendKeys (param : String)
  /-- `element.click()` -/
  | clickAction
  /-- `if not element.is_selected(): element.click()` — a click guarded
  by a selection-state check -/
  | clickIfNotSelected
  /-- `Select(element).select_by_visible_text(param)` -/
  | selectByVisibleText (param : String)
deriving DecidableEq, Repr

/-- One generated accessor: its method name, its parameters besides
`self`, and its body. -/
structure AccessorMethod where
  method_name : String
  params : List String
  body : List Stmt
deriving DecidableEq, Repr

/-- The category dispatch of `generate_pom` (lines 150-198): which
method, if any, is emitted for a record of the given category, once the
page-unique name part and a non-empty xpath are in hand. -/
def methodFor (category name xpath : String) : Option AccessorMethod :=
  let esc := escapeSingleQuotes xpath
  if category = "input_field" then
    some ⟨"enter_" ++ name, ["value"],
      [.logDebug, .waitPresence esc, .clearContent, .sendKeys "value"]⟩
  else if category = "button" then
    some ⟨"click_" ++ name, [], [.logDebug, .waitClickable esc, .clickAction]⟩
  else if category = "checkbox" then
    some ⟨"check_" ++ name, [], [.logDebug, .waitPresence esc, .clickIfNotSelected]⟩
  else if category = "dropdown" then
    some ⟨"select_option_from_" ++ name, ["option_text"],
      [.logDebug, .waitPresence esc, .selectByVisibleText "option_text"]⟩
  else if category = "radio" then
    some ⟨"select_" ++ name, [], [.logDebug, .waitClickable esc, .clickIfNotSelected]⟩
  else none

/-- The per-record loop of `generate_pom` (lines 127-201).  For each
record, in order: sanitize the identifier (category as fallback seed),
resolve the name against the already-generated names, consume the name,
then emit a method unless the xpath is empty or the category is
unrecognized.  Returns, per record, the resolved name part and the
emitted method (if any). -/
def pomProcess : List Locator → List String → List (String × Option AccessorMethod)
  | [], _ => []
  | l :: rest, used =>
    let base := sanitize_identifier_for_method_name l.identifier l.category
    let name := resolveName base used
    let m : Option AccessorMethod :=
      if l.xpath = "" then none else methodFor l.category name l.xpath
    (name, m) :: pomProcess rest (name :: used)

/-- The page-unique method-name parts assigned by `generate_pom`, one
per processed record, in input order. -/
def assignedNameParts (ls : List Locator) : List String :=
  (pomProcess ls []).map Prod.fst

/-- The accessor methods `generate_pom` emits for a record list, in
input order. -/
def generatedMethods (ls : List Locator) : List AccessorMethod :=
  (pomProcess ls []).filterMap Prod.snd

/-- Outcome of one HTTP round-trip of `query_ollama`
(`ollama_utils.py`, lines 5-46), abstracting `requests`: the request may
time out, fail with an HTTP error status, fail with another network
error, return a body that is not JSON, or succeed with a JSON body whose
`response` field is the given string (a missing field is `""` via
`result.get("response", "")`). -/
inductive ApiResult where
  | timeout
  | httpError (status : Nat)
  | networkError
  | badJson
  | ok (response : String)
deriving DecidableEq, Repr

/-- Embedding of `query_ollama`: every exception branch returns `None`;
a successful JSON body whose `response` field is empty or
whitespace-only also returns `None`; otherwise the response string is
returned as-is. -/
def query_ollama (r : ApiResult) : Option String :=
  match r with
  | .ok response => if pyStrip response = "" then none else some response
  | _ => none

/-- `r` is one of the failure outcomes of the API round-trip, or a
success whose `response` text is empty or whitespace-only. -/
def failureOrBlank (r : ApiResult) : Prop :=
  match r with
  | .ok response => pyStrip response = ""
  | _ => True

instance : DecidablePred failureOrBlank := by
  intro r
  unfold failureOrBlank
  cases r <;> infer_instance

/-- The retry directive `generate_json_with_ollama` appends to the
prompt after a JSON parse failure (`ollama_utils.py`, line 71). -/
def CRITICAL_DIRECTIVE : String :=
  "\n\nCRITICAL: The output MUST be a valid JSON array. Do not include any text, explanations, or markdown syntax before or after the JSON content."

/-- The `for attempt in range(max_retries)` loop of
`generate_json_with_ollama` (`ollama_utils.py`, lines 60-73).
`oracle i p` is what `query_ollama(p)` returns on the `i`-th call
(`i` is the attempt index); `parse` abstracts `json.loads`, applied to
the stripped response; `remaining` counts the attempts still available
(`remaining = max_retries - attempt`, so Python's
`attempt < max_retries - 1` is `0 < remaining - 1`, i.e. `1 < remaining`
at the head of an iteration, written `0 < remaining` after the head
attempt is peeled off).  An absent or empty response
(`if not response`) moves to the next attempt with the prompt
unchanged; an unparsable response appends the directive when further
attempts remain; the loop ends with `None` when attempts run out. -/
def genJsonLoop (oracle : Nat → String → Option String) (parse : String → Option J) :
    Nat → Nat → String → Option J
  | _, 0, _ => none
  | attempt, remaining + 1, prompt =>
    match oracle attempt prompt with
    | none => genJsonLoop oracle parse (attempt + 1) remaining prompt
    | some response =>
      if response = "" then genJsonLoop oracle parse (attempt + 1) remaining prompt
      else
        match parse (pyStrip response) with
        | some parsed => some parsed
        | none =>
          let prompt' := if 0 < remaining then prompt ++ CRITICAL_DIRECTIVE else prompt
          genJsonLoop oracle parse (attempt + 1) remaining prompt'

/-- Embedding of `generate_json_with_ollama` with its default
`max_retries=3`. -/
def generate_json_with_ollama (oracle : Nat → String → Option String)
    (parse : String → Option J) (prompt : String) : Option J :=
  genJsonLoop oracle parse 0 3 prompt

/-- Index of the **last** occurrence of `pat` (as a contiguous
sublist) in `cs`, modelling Python's `str.rindex`. -/
def rlastIndexOf (pat : List Char) : List Char → Option Nat
  | [] => none
  | c :: rest =>
    match rlastIndexOf pat rest with
    | some i => some (i + 1)
    | none => if pat.isPrefixOf (c :: rest) then some 0 else none

/-- Python `s.index('\n')`: index of the first newline, `None`
modelling the `ValueError`. -/
def firstNewlineIdx : List Char → Option Nat
  | [] => none
  | c :: rest =>
    if c = '\n' then some 0 else (firstNewlineIdx rest).map (· + 1)

/-- Python `s.startswith(pre)`. -/
def pyStartsWith (pre s : String) : Bool := pre.data.isPrefixOf s.data

/-- The fence marker `test_content.strip().startswith("```python")`
checks for (`gherkin_to_test_ai_refactored.py`, line 142). -/
def pythonFence : String := "```python"

/-- The closing fence `test_content.rindex('```')` searches for. -/
def fenceMarker : String := "```"

/-- Embedding of the fence-stripping post-processing of
`convert_gherkin_to_test` (`gherkin_to_test_ai_refactored.py`, lines
141-150).  If the stripped response starts with the Python fence
marker: take the slice between the first newline and the last
occurrence of the closing fence, then strip it; the `ValueError` branch
(no newline at all — the `rindex` cannot fail once the marker is
present) passes the response through unmodified.  A response not
starting with the marker is returned unchanged. -/
def stripMarkdownFences (s : String) : String :=
  let cs := s.data
  if pyStartsWith pythonFence (pyStrip s) then
    match firstNewlineIdx cs with
    | none => s
    | some firstNewline =>
      match rlastIndexOf fenceMarker.data cs with
      | none => s
      | some lastFence =>
        pyStrip (String.mk ((cs.take lastFence).drop (firstNewline + 1)))
  else s

/-- Python `identifier.replace("_", " ")`. -/
def replaceUnderscores (s : String) : String :=
  String.mk (s.data.map (fun c => if c = '_' then ' ' else c))

/-- Python `s.lower()` on strings (ASCII model). -/
def lowerString (s : String) : String := String.mk (s.data.map pyLower)

/-- Python's substring test `pat in s`. -/
def isSubstringOf (pat s : String) : Bool :=
  (List.range (s.data.length + 1)).any (fun i => pat.data.isPrefixOf (s.data.drop i))

/-- The step keywords `generate_gherkin` scans for
(`gherkin_generator_refactored.py`, line 67). -/
def stepKeywords : List String := ["Given ", "When ", "And ", "Then "]

/-- `line.startswith(("Given ", "When ", "And ", "Then "))`. -/
def isStepLine (line : String) : Bool :=
  stepKeywords.any (fun k => pyStartsWith k line)

/-- The match test of `generate_gherkin` (line 70): the record's
identifier, underscores replaced by spaces, is a case-insensitive
substring of the (stripped) line. -/
def stepLineMatches (loc : Locator) (line : String) : Bool :=
  isSubstringOf (lowerString (replaceUnderscores loc.identifier)) (lowerString line)

/-- One mapping entry: the LocatorRecord and the exact step line that
mentioned it (`LocatorMap.add_locator`'s value dictionary). -/
structure MapEntry where
  element_info : Locator
  gherkin_step : String
deriving DecidableEq, Repr

/-- The `LocatorMap._map` dictionary, as an ordered association list
with unique keys (Python dict insertion order). -/
abbrev LMap : Type := List (String × MapEntry)

/-- Python dict assignment `d[k] = v`: replace the value in place when
the key exists, append otherwise. -/
def dictInsert : LMap → String → MapEntry → LMap
  | [], k, v => [(k, v)]
  | (k', v') :: rest, k, v =>
    if k' = k then (k, v) :: rest else (k', v') :: dictInsert rest k v

/-- Dictionary lookup `d[k]`. -/
def dictLookup : LMap → String → Option MapEntry
  | [], _ => none
  | (k', v') :: rest, k => if k' = k then some v' else dictLookup rest k

/-- The inner `for locator in locators` loop of `generate_gherkin`
(lines 68-72): the first record whose spaced identifier occurs
case-insensitively in the line is added under its spaced identifier and
the scan stops (`break`); later records are not consulted. -/
def scanRecords (locs : List Locator) (line : String) (m : LMap) : LMap :=
  match locs with
  | [] => m
  | loc :: rest =>
    if stepLineMatches loc line then
      dictInsert m (replaceUnderscores loc.identifier) ⟨loc, line⟩
    else scanRecords rest line m

/-- The per-line body of `generate_gherkin`'s scan (lines 65-72): strip
the line; only a line starting with a step keyword is scanned against
the records. -/
def processLine (locs : List Locator) (m : LMap) (rawLine : String) : LMap :=
  let line := pyStrip rawLine
  if isStepLine line then scanRecords locs line m else m

/-- The StepLocatorMapping built by `generate_gherkin` over the whole
ScenarioDocument (splitting on newlines; a would-be trailing fragment
of `splitlines` never starts with a keyword after stripping, so the
split model is observationally equal). -/
def buildLocatorMap (locs : List Locator) (content : String) : LMap :=
  (content.split (fun c => c = '\n')).foldl (processLine locs) []

/-! ## Theorems -/

/-- C10: the oracle query helper never raises to its caller: every
timeout, HTTP error, other network error, and JSON-decode failure of
the API response, as well as a successful response whose text is empty
or whitespace-only, results in the return value `None`; any non-`None`
return is the model's non-whitespace response string. -/
theorem query_ollama_never_raises (r : ApiResult) (s : String) :
    (query_ollama r = none ↔ failureOrBlank r) ∧
    (query_ollama r = some s ↔ r = ApiResult.ok s ∧ pyStrip s ≠ "") := by
  constructor
  · cases r <;> simp [query_ollama, failureOrBlank]
  · cases r <;> simp [query_ollama]
    case ok t =>
      by_cases h : pyStrip t = "" <;> simp [h] <;> (rintro rfl; exact h)

/-- C1 counterexample: in `extract_locators`' validation, the entry
`{identifier:"x", category:"input_field", xpath:"//a", css_selector:""}`
has a fresh non-empty identifier and a non-empty xpath, yet is dropped
(the output is empty), contradicting the claim that every such entry
with at least one of xpath/css_selector non-empty is accepted. -/
theorem extract_drops_entry_with_empty_css :
    extractLocatorsValidate [⟨"x", "input_field", "//a", ""⟩] = [] := by
  decide

/-- C1 (amended): in `extract_locators`' validation an entry with a
non-empty identifier is accepted if and only if **both** its xpath and
its css_selector are non-empty — an entry with exactly one of them
non-empty is dropped; the drop-only-when-both-empty rule holds instead
in `generate_pom`'s validation, where such an entry is accepted if and
only if at least one of the two is non-empty. -/
theorem extract_usability_requires_both_locators (l : Locator)
    (h : l.identifier ≠ "") :
    (extractLocatorsValidate [l] = [l] ↔ (l.xpath ≠ "" ∧ l.css_selector ≠ "")) ∧
    (pomValidate [l] = [l] ↔ (l.xpath ≠ "" ∨ l.css_selector ≠ "")) := by
  by_cases hx : l.xpath = "" <;> by_cases hc : l.css_selector = "" <;>
    simp [extractLocatorsValidate, extractValidLoop, pomValidate, pomValidLoop,
      h, hx, hc]

/-- Witness for `extract_usability_requires_both_locators` at the
record `{identifier:"x", category:"c", xpath:"//a", css_selector:""}`:
it is rejected by the extraction stage but accepted by the backup POM
stage. -/
theorem extract_usability_witness :
    extractLocatorsValidate [⟨"x", "c", "//a", ""⟩] ≠ [⟨"x", "c", "//a", ""⟩] ∧
    pomValidate [⟨"x", "c", "//a", ""⟩] = [⟨"x", "c", "//a", ""⟩] := by
  have h := extract_usability_requires_both_locators ⟨"x", "c", "//a", ""⟩ (by decide)
  constructor
  · intro hc
    exact (by decide : ¬(("//a" : String) ≠ "" ∧ ("" : String) ≠ "")) (h.1.mp hc)
  · exact h.2.mpr (Or.inl (by decide))

/-- If every record's identifier is already seen, `extract_locators`'
loop accepts nothing. -/
lemma extractValidLoop_all_seen (ls : List Locator) (seen : List String)
    (h : ∀ r ∈ ls, r.identifier ∈ seen) : extractValidLoop ls seen = [] := by
  induction ls with
  | nil => rfl
  | cons l rest ih =>
    have hl := h l (by simp)
    simp [extractValidLoop, hl]
    exact ih fun r hr => h r (by simp [hr])

/-- C5 counterexample: on the claim's own example input
`[{id:"x",xpath:"//a"},{id:"x",xpath:"//b"}]` (no css_selector, modelled
as `""`), the Element Extraction Stage's validation returns the empty
list — not one record with xpath `//a` — because each entry's missing
`css_selector` makes the usability check drop it before deduplication
records anything. -/
theorem extract_dedup_example_is_dropped :
    extractLocatorsValidate [⟨"x", "", "//a", ""⟩, ⟨"x", "", "//b", ""⟩] = [] := by
  decide

/-- C5 (amended): given an input list whose first record is usable
(non-empty identifier, xpath and css_selector) and in which every later
record repeats that identifier, the Element Extraction Stage accepts
exactly the first occurrence; the claim's example needs non-empty
css_selectors for any record to survive. -/
theorem extract_dedup_first_seen_wins (l : Locator) (rest : List Locator)
    (h1 : l.identifier ≠ "") (h2 : l.xpath ≠ "") (h3 : l.css_selector ≠ "")
    (hrest : ∀ r ∈ rest, r.identifier = l.identifier) :
    extractLocatorsValidate (l :: rest) = [l] := by
  simp [extractLocatorsValidate, extractValidLoop, h1, h2, h3]
  exact extractValidLoop_all_seen rest _ fun r hr => by simp [hrest r hr]

/-- Witness for `extract_dedup_first_seen_wins`: with css_selectors
present, `[{id:"x",xpath:"//a",css:"c"},{id:"x",xpath:"//b",css:"d"}]`
yields exactly the first record. -/
theorem extract_dedup_witness :
    extractLocatorsValidate [⟨"x", "", "//a", "c"⟩, ⟨"x", "", "//b", "d"⟩] =
      [⟨"x", "", "//a", "c"⟩] :=
  extract_dedup_first_seen_wins ⟨"x", "", "//a", "c"⟩ [⟨"x", "", "//b", "d"⟩]
    (by decide) (by decide) (by decide) (by decide)

/-- C4 counterexample: a transport-level failure does **not** make
`generate_json_with_ollama` fail immediately.  With an underlying call
that fails on the first attempt (`query_ollama` returns `None`) and
returns parseable JSON on the second, the helper retries and succeeds,
contradicting the claim that a transport failure fails the call at
once. -/
theorem genJson_retries_after_transport_failure :
    (fun (i : Nat) (_ : String) =>
      if i = 0 then none else some "[1]") 0 "p" = (none : Option String) ∧
    generate_json_with_ollama (fun i _ => if i = 0 then none else some "[1]")
      (fun s => if s = "[1]" then some 42 else none) "p" = some 42 := by
  exact ⟨rfl, rfl⟩

/-- C4 (amended): the oracle JSON helper runs up to its fixed attempt
count (3).  After a response that fails to parse it appends the
stronger directive to the prompt before the next attempt; after a
transport-level failure or timeout (the underlying call returns no
response) it also retries — with the prompt unchanged — rather than
failing immediately; it returns `None` only once all attempts are
exhausted. -/
theorem genJson_retry_behavior {J : Type} :
    (∀ (oracle : Nat → String → Option String) (parse : String → Option J)
       (prompt s : String) (v : J),
      oracle 0 prompt = none → oracle 1 prompt = some s → s ≠ "" →
      parse (pyStrip s) = some v →
      generate_json_with_ollama oracle parse prompt = some v) ∧
    (∀ (oracle : Nat → String → Option String) (parse : String → Option J)
       (prompt s t : String) (v : J),
      oracle 0 prompt = some s → s ≠ "" → parse (pyStrip s) = none →
      oracle 1 (prompt ++ CRITICAL_DIRECTIVE) = some t → t ≠ "" →
      parse (pyStrip t) = some v →
      generate_json_with_ollama oracle parse prompt = some v) ∧
    (∀ (oracle : Nat → String → Option String) (parse : String → Option J)
       (prompt : String),
      (∀ i p, oracle i p = none) →
      generate_json_with_ollama oracle parse prompt = none) := by
  refine ⟨?_, ?_, ?_⟩
  · intro oracle parse prompt s v h0 h1 hs hv
    simp [generate_json_with_ollama, genJsonLoop, h0, h1, hs, hv]
  · intro oracle parse prompt s t v h0 hs hp h1 ht hv
    simp [generate_json_with_ollama, genJsonLoop, h0, hs, hp, h1, ht, hv]
  · intro oracle parse prompt hall
    simp [generate_json_with_ollama, genJsonLoop, hall]

/-- Witness for `genJson_retry_behavior`: attempt 0 fails at the
transport level, attempt 1 returns `"[2]"`, which parses; the helper
returns the parsed value. -/
theorem genJson_retry_witness :
    generate_json_with_ollama (fun i _ => if i = 0 then none else some "[2]")
      (fun s => if s = "[2]" then some (7 : Nat) else none) "q" = some 7 :=
  genJson_retry_behavior.1 (fun i _ => if i = 0 then none else some "[2]")
    (fun s => if s = "[2]" then some (7 : Nat) else none) "q" "[2]" 7
    rfl rfl (by decide) rfl

/-- A list whose head does not satisfy `p` is unchanged by
`dropWhile p`. -/
lemma dropWhile_eq_self_of_head {p : Char → Bool} {cs : List Char}
    (h : ∀ hd, cs.head? = some hd → p hd = false) : cs.dropWhile p = cs := by
  cases cs with
  | nil => rfl
  | cons a l => simp [List.dropWhile_cons, h a rfl]

/-- A list whose head and last element do not satisfy `p` is unchanged
by `stripWhile p`. -/
lemma stripWhile_eq_self {p : Char → Bool} {cs : List Char}
    (hh : ∀ hd, cs.head? = some hd → p hd = false)
    (hl : ∀ lt, cs.getLast? = some lt → p lt = false) : stripWhile p cs = cs := by
  unfold stripWhile
  have h1 : cs.reverse.dropWhile p = cs.reverse := by
    apply dropWhile_eq_self_of_head
    intro hd hhd
    rw [List.head?_reverse] at hhd
    exact hl hd hhd
  rw [h1, List.reverse_reverse]
  exact dropWhile_eq_self_of_head hh

/-- `rindex('```')` on a text ending in the closing fence finds exactly
the start of that final fence. -/
lemma rlastIndexOf_append_fence (ys : List Char) :
    rlastIndexOf fenceMarker.data (ys ++ fenceMarker.data) = some ys.length := by
  induction ys with
  | nil => decide
  | cons c t ih => simp [rlastIndexOf, ih]

/-- `firstNewlineIdx` skips a newline-free block and shifts. -/
lemma firstNewlineIdx_append_of_none (A B : List Char)
    (h : firstNewlineIdx A = none) :
    firstNewlineIdx (A ++ B) = (firstNewlineIdx B).map (· + A.length) := by
  induction A with
  | nil => cases hB : firstNewlineIdx B <;> simp [hB]
  | cons a t ih =>
    by_cases ha : a = '\n'
    · simp [firstNewlineIdx, ha] at h
    · cases ht : firstNewlineIdx t with
      | none =>
        cases hB : firstNewlineIdx B with
        | none => simp [firstNewlineIdx, ha, ih ht, hB]
        | some v =>
          simp only [List.cons_append, firstNewlineIdx, ha, if_false, List.append_eq,
            ih ht, hB, Option.map_some', List.length_cons]
          exact congrArg some (by omega)
      | some k => simp [firstNewlineIdx, ha, ht] at h

/-- A text without a newline has no first-newline index (the
`ValueError` branch of the fence stripper). -/
lemma firstNewlineIdx_eq_none {cs : List Char} (h : '\n' ∉ cs) :
    firstNewlineIdx cs = none := by
  induction cs with
  | nil => rfl
  | cons a t ih =>
    rw [List.mem_cons] at h
    push_neg at h
    simp [firstNewlineIdx, Ne.symm h.1, ih h.2]

/-- Two strings with the same character data are equal. -/
lemma string_ext {x y : String} (h : x.data = y.data) : x = y := by
  cases x; cases y; exact congrArg String.mk h

/-- `getLast?` of an append with a non-empty right part. -/
lemma getLast?_append_right {A B : List Char} (h : B ≠ []) :
    (A ++ B).getLast? = B.getLast? := by
  exact List.getLast?_append_of_ne_nil _ h

/-- Core of the fence stripper on a canonically fenced text: the
opening `python` fence line and the closing fence are removed and the
enclosed text is stripped. -/
lemma stripFence_core (B : List Char) :
    stripMarkdownFences (String.mk ("```python\n".data ++ (B ++ "\n```".data))) =
      String.mk (stripWhile isPyWs B) := by
  set cs : List Char := "```python\n".data ++ (B ++ "\n```".data) with hcs
  have hhead : cs.head? = some (Char.ofNat 96) := by
    rw [hcs, show ("```python\n".data) = Char.ofNat 96 :: ("``python\n".data) from by decide]
    simp
  have hlast : cs.getLast? = some (Char.ofNat 96) := by
    rw [hcs, getLast?_append_right (by simp), getLast?_append_right (by decide)]
    decide
  have hstrip : pyStrip (String.mk cs) = String.mk cs := by
    unfold pyStrip
    congr 1
    apply stripWhile_eq_self
    · intro hd hh
      rw [hhead] at hh
      injection hh with h2
      subst h2
      decide
    · intro lt hl
      rw [hlast] at hl
      injection hl with h2
      subst h2
      decide
  have hstart : pyStartsWith pythonFence (pyStrip (String.mk cs)) = true := by
    rw [hstrip]
    show pythonFence.data.isPrefixOf cs = true
    rw [List.isPrefixOf_iff_prefix, hcs,
      show ("```python\n".data) = pythonFence.data ++ ['\n'] from by decide,
      List.append_assoc]
    exact List.prefix_append _ _
  have hnl : firstNewlineIdx cs = some 9 := by
    rw [hcs, show ("```python\n".data) = "```python".data ++ ['\n'] from by decide,
      List.append_assoc, firstNewlineIdx_append_of_none _ _ (by decide)]
    simp [firstNewlineIdx]
  have hrf : rlastIndexOf fenceMarker.data cs = some (B.length + 11) := by
    rw [hcs, show ("\n```".data) = ['\n'] ++ fenceMarker.data from by decide,
      show "```python\n".data ++ (B ++ (['\n'] ++ fenceMarker.data)) =
        ("```python\n".data ++ (B ++ ['\n'])) ++ fenceMarker.data from by
          simp [List.append_assoc],
      rlastIndexOf_append_fence]
    refine congrArg some ?_
    simp
  have hslice : (cs.take (B.length + 11)).drop 10 = B ++ ['\n'] := by
    rw [hcs, show ("\n```".data) = ['\n'] ++ fenceMarker.data from by decide,
      show "```python\n".data ++ (B ++ (['\n'] ++ fenceMarker.data)) =
        ("```python\n".data ++ (B ++ ['\n'])) ++ fenceMarker.data from by
          simp [List.append_assoc],
      show B.length + 11 = ("```python\n".data ++ (B ++ ['\n'])).length from by
        simp,
      List.take_left,
      show (10 : Nat) = ("```python\n".data).length from by decide,
      List.drop_left]
  show stripMarkdownFences (String.mk cs) = String.mk (stripWhile isPyWs B)
  unfold stripMarkdownFences
  simp only [hstart, if_true, hnl, hrf]
  rw [show (9 + 1 : Nat) = 10 from rfl, hslice]
  unfold pyStrip
  congr 1
  unfold stripWhile
  rw [List.reverse_append]
  simp [List.dropWhile_cons, isPyWs]

/-- C8 counterexample: an oracle response wrapped in a fenced code
block whose opening marker is not the Python-tagged fence — here
`"```json\nx\n```"` — is persisted **unchanged**: its opening fence
marker and matching closer are not removed, because the code checks
specifically for the `"```python"` marker. -/
theorem fence_not_stripped_for_json :
    stripMarkdownFences "```json\nx\n```" = "```json\nx\n```" := by
  decide

/-- C8 (amended): an oracle response wrapped in the Python-tagged
fenced code block (`"```python\n" ++ body ++ "\n```"`) has the opening
fence line and the closing fence removed and the stripped enclosed text
persisted; a response whose stripped form does not begin with the
`"```python"` marker is persisted unchanged; and a response in which
the newline delimiting the fence cannot be located is passed through
unmodified. -/
theorem fence_stripping_behavior :
    (∀ body : String,
      stripMarkdownFences ("```python\n" ++ body ++ "\n```") = pyStrip body) ∧
    (∀ s : String, pyStartsWith pythonFence (pyStrip s) = false →
      stripMarkdownFences s = s) ∧
    (∀ s : String, '\n' ∉ s.data → stripMarkdownFences s = s) := by
  refine ⟨?_, ?_, ?_⟩
  · intro body
    have harg : ("```python\n" ++ body ++ "\n```") =
        String.mk ("```python\n".data ++ (body.data ++ "\n```".data)) := by
      apply string_ext
      simp [String.data_append]
    rw [harg, stripFence_core]
    rfl
  · intro s hs
    unfold stripMarkdownFences
    simp [hs]
  · intro s hnl
    by_cases hc : pyStartsWith pythonFence (pyStrip s) = true
    · simp [stripMarkdownFences, hc, firstNewlineIdx_eq_none hnl]
    · simp [stripMarkdownFences, hc]

/-- Witness for `fence_stripping_behavior`: a response without the
marker is unchanged, and a marker-bearing response with no newline is
passed through. -/
theorem fence_stripping_witness :
    stripMarkdownFences "no fences here" = "no fences here" ∧
    stripMarkdownFences "```python code no newline" = "```python code no newline" :=
  ⟨fence_stripping_behavior.2.1 "no fences here" (by decide),
   fence_stripping_behavior.2.2 "```python code no newline" (by decide)⟩

/-- Keys after a dict assignment: unchanged when the key exists,
appended otherwise. -/
lemma dictInsert_keys (m : LMap) (k : String) (v : MapEntry) :
    (dictInsert m k v).map Prod.fst =
      if k ∈ m.map Prod.fst then m.map Prod.fst else m.map Prod.fst ++ [k] := by
  induction m with
  | nil => simp [dictInsert]
  | cons p rest ih =>
    obtain ⟨k', v'⟩ := p
    by_cases hk : k' = k
    · subst hk
      simp [dictInsert]
    · simp only [dictInsert, hk, if_false, List.map_cons, List.mem_cons]
      rw [ih]
      by_cases hmem : k ∈ rest.map Prod.fst <;>
        simp [hmem, hk, Ne.symm hk]

/-- Dict assignment preserves key uniqueness. -/
lemma dictInsert_keys_nodup {m : LMap} (k : String) (v : MapEntry)
    (h : (m.map Prod.fst).Nodup) : ((dictInsert m k v).map Prod.fst).Nodup := by
  rw [dictInsert_keys]
  split
  · exact h
  · rename_i hk
    simp [List.nodup_append, h, hk]

/-- Looking up the just-assigned key yields the new value. -/
lemma dictLookup_insert (m : LMap) (k : String) (v : MapEntry) :
    dictLookup (dictInsert m k v) k = some v := by
  induction m with
  | nil => simp [dictInsert, dictLookup]
  | cons p rest ih =>
    obtain ⟨k', v'⟩ := p
    by_cases hk : k' = k <;> simp [dictInsert, dictLookup, hk, ih]

/-- Size after a dict assignment: unchanged for an existing key
(overwrite), one larger for a fresh key (append). -/
lemma dictInsert_length (m : LMap) (k : String) (v : MapEntry) :
    (dictInsert m k v).length =
      if k ∈ m.map Prod.fst then m.length else m.length + 1 := by
  have h := congrArg List.length (dictInsert_keys m k v)
  simp only [List.length_map] at h
  rw [h]
  split <;> simp

/-- The per-line scan preserves key uniqueness. -/
lemma scanRecords_keys_nodup (locs : List Locator) (line : String) (m : LMap)
    (h : (m.map Prod.fst).Nodup) :
    ((scanRecords locs line m).map Prod.fst).Nodup := by
  induction locs with
  | nil => exact h
  | cons loc rest ih =>
    unfold scanRecords
    split
    · exact dictInsert_keys_nodup _ _ h
    · exact ih

/-- C9: the StepLocatorMapping scan considers only lines starting with
a step keyword; on a step line the first record whose spaced identifier
occurs case-insensitively wins and the scan of that line stops there; a
non-matching head record is skipped; assignment into the map overwrites
the entry for an existing identifier (lookup yields the new value, the
size does not grow) instead of appending; consequently the whole map
built over a document always has pairwise-distinct identifiers. -/
theorem step_locator_mapping_scan :
    (∀ (locs : List Locator) (m : LMap) (line : String),
      isStepLine (pyStrip line) = false → processLine locs m line = m) ∧
    (∀ (loc : Locator) (rest : List Locator) (line : String) (m : LMap),
      stepLineMatches loc line = true →
      scanRecords (loc :: rest) line m =
        dictInsert m (replaceUnderscores loc.identifier) ⟨loc, line⟩) ∧
    (∀ (loc : Locator) (rest : List Locator) (line : String) (m : LMap),
      stepLineMatches loc line = false →
      scanRecords (loc :: rest) line m = scanRecords rest line m) ∧
    (∀ (m : LMap) (k : String) (v : MapEntry),
      dictLookup (dictInsert m k v) k = some v ∧
      (dictInsert m k v).length =
        if k ∈ m.map Prod.fst then m.length else m.length + 1) ∧
    (∀ (locs : List Locator) (content : String),
      ((buildLocatorMap locs content).map Prod.fst).Nodup) := by
  refine ⟨?_, ?_, ?_, ?_, ?_⟩
  · intro locs m line h
    simp [processLine, h]
  · intro loc rest line m h
    simp [scanRecords, h]
  · intro loc rest line m h
    simp [scanRecords, h]
  · intro m k v
    exact ⟨dictLookup_insert m k v, dictInsert_length m k v⟩
  · intro locs content
    unfold buildLocatorMap
    have key : ∀ (lines : List String) (m : LMap), (m.map Prod.fst).Nodup →
        ((lines.foldl (processLine locs) m).map Prod.fst).Nodup := by
      intro lines
      induction lines with
      | nil => intro m h; exact h
      | cons ln rest ih =>
        intro m h
        apply ih
        have hpl : processLine locs m ln =
            if isStepLine (pyStrip ln) then scanRecords locs (pyStrip ln) m else m := rfl
        rw [hpl]
        split
        · exact scanRecords_keys_nodup _ _ _ h
        · exact h
    exact key _ [] (by simp)

/-- Witness for `step_locator_mapping_scan`: a non-step line changes
nothing; a matching head record is inserted under its spaced
identifier; a non-matching head record is skipped. -/
theorem step_locator_mapping_witness :
    processLine [] [] "Feature: x" = [] ∧
    scanRecords [⟨"user_name", "input_field", "//a", "c"⟩] "Given the User Name" [] =
      dictInsert [] "user name"
        ⟨⟨"user_name", "input_field", "//a", "c"⟩, "Given the User Name"⟩ ∧
    scanRecords [⟨"zzz", "", "", ""⟩, ⟨"user_name", "input_field", "//a", "c"⟩]
        "Given the User Name" [] =
      scanRecords [⟨"user_name", "input_field", "//a", "c"⟩] "Given the User Name" [] :=
  ⟨step_locator_mapping_scan.1 [] [] "Feature: x" (by decide),
   step_locator_mapping_scan.2.1 ⟨"user_name", "input_field", "//a", "c"⟩ []
     "Given the User Name" [] (by decide),
   step_locator_mapping_scan.2.2.1 ⟨"zzz", "", "", ""⟩
     [⟨"user_name", "input_field", "//a", "c"⟩] "Given the User Name" [] (by decide)⟩

/-- C7 counterexample: the record
`{identifier:"terms", category:"checkbox", xpath:"", css_selector:"input#t"}`
is usable (it passes `generate_pom`'s validation, having a non-empty
css_selector), yet the Accessor Generation Stage emits **no** `check_*`
method for it — the claim's "always yields a check_<name> method" fails
for checkbox records whose xpath is empty. -/
theorem usable_checkbox_record_yields_no_method :
    pomValidate [⟨"terms", "checkbox", "", "input#t"⟩] =
      [⟨"terms", "checkbox", "", "input#t"⟩] ∧
    generatedMethods [⟨"terms", "checkbox", "", "input#t"⟩] = [] := by
  exact ⟨by decide, by decide⟩

/-- C7 (amended): a record with category `"checkbox"` **and a non-empty
xpath** yields a `check_<name>` method whose click is guarded by a
selection-state check; a record with category `"dropdown"` and a
non-empty xpath yields a `select_option_from_<name>` method taking
exactly the one parameter `option_text`; a record with an unrecognized
category emits no method and does not fail the stage. -/
theorem category_shape_mapping :
    (∀ l : Locator, l.category = "checkbox" → l.xpath ≠ "" →
      generatedMethods [l] =
        [⟨"check_" ++ sanitize_identifier_for_method_name l.identifier l.category,
          [],
          [Stmt.logDebug, Stmt.waitPresence (escapeSingleQuotes l.xpath),
           Stmt.clickIfNotSelected]⟩]) ∧
    (∀ l : Locator, l.category = "dropdown" → l.xpath ≠ "" →
      generatedMethods [l] =
        [⟨"select_option_from_" ++
            sanitize_identifier_for_method_name l.identifier l.category,
          ["option_text"],
          [Stmt.logDebug, Stmt.waitPresence (escapeSingleQuotes l.xpath),
           Stmt.selectByVisibleText "option_text"]⟩]) ∧
    (∀ l : Locator,
      l.category ∉ ["input_field", "button", "checkbox", "dropdown", "radio"] →
      generatedMethods [l] = []) := by
  refine ⟨?_, ?_, ?_⟩
  · intro l hc hx
    simp [generatedMethods, pomProcess, methodFor, resolveName, hc, hx]
  · intro l hc hx
    simp [generatedMethods, pomProcess, methodFor, resolveName, hc, hx]
  · intro l hc
    simp only [List.mem_cons, List.mem_singleton, not_or] at hc
    obtain ⟨h1, h2, h3, h4, h5⟩ := hc
    by_cases hx : l.xpath = "" <;>
      simp [generatedMethods, pomProcess, methodFor, resolveName, hx,
        h1, h2, h3, h4, h5]

/-- Witness for `category_shape_mapping` at three concrete records: a
checkbox, a dropdown and an unrecognized category. -/
theorem category_shape_witness :
    generatedMethods [⟨"agree", "checkbox", "//i", "c"⟩] =
      [⟨"check_agree", [],
        [Stmt.logDebug, Stmt.waitPresence "//i", Stmt.clickIfNotSelected]⟩] ∧
    generatedMethods [⟨"color", "dropdown", "//s", "c"⟩] =
      [⟨"select_option_from_color", ["option_text"],
        [Stmt.logDebug, Stmt.waitPresence "//s",
         Stmt.selectByVisibleText "option_text"]⟩] ∧
    generatedMethods [⟨"thing", "mystery", "//m", "c"⟩] = [] := by
  refine ⟨?_, ?_, ?_⟩
  · have h := category_shape_mapping.1 ⟨"agree", "checkbox", "//i", "c"⟩ rfl (by decide)
    rw [h]
    decide
  · have h := category_shape_mapping.2.1 ⟨"color", "dropdown", "//s", "c"⟩ rfl (by decide)
    rw [h]
    decide
  · exact category_shape_mapping.2.2 ⟨"thing", "mystery", "//m", "c"⟩ (by decide)


/-- `Char.toNat` of `Char.ofNat n` for `n` below the surrogate range. -/
lemma char_toNat_ofNat_lt {n : Nat} (h : n < 55296) : (Char.ofNat n).toNat = n := by
  have hv : n.isValidChar := Or.inl h
  simp only [Char.ofNat, hv, dif_pos, Char.ofNatAux, Char.toNat]
  simp [UInt32.toNat, UInt32.ofNatCore]

/-- Decimal digit characters are distinct for distinct digits. -/
lemma digitChar_inj {a b : Nat} (ha : a < 10) (hb : b < 10)
    (h : digitChar a = digitChar b) : a = b := by
  have h2 := congrArg Char.toNat h
  unfold digitChar at h2
  rw [char_toNat_ofNat_lt (by omega), char_toNat_ofNat_lt (by omega)] at h2
  omega

/-- The digit fuel is irrelevant as soon as it dominates the number. -/
lemma natDigitsFuel_irrel : ∀ (m f1 f2 : Nat), m ≤ f1 → m ≤ f2 →
    natDigitsFuel f1 m = natDigitsFuel f2 m := by
  intro m
  induction m using Nat.strong_induction_on with
  | _ m ih =>
    intro f1 f2 h1 h2
    match m, f1, f2 with
    | 0, 0, 0 => rfl
    | 0, 0, _ + 1 => rfl
    | 0, _ + 1, 0 => rfl
    | 0, _ + 1, _ + 1 => rfl
    | m' + 1, a + 1, b + 1 =>
      simp only [natDigitsFuel]
      rw [ih ((m' + 1) / 10) (by omega) a b (by omega) (by omega)]

/-- Recurrence of `natDigits` on positive numbers. -/
lemma natDigits_succ (m : Nat) :
    natDigits (m + 1) = natDigits ((m + 1) / 10) ++ [digitChar ((m + 1) % 10)] := by
  unfold natDigits
  show natDigitsFuel (m + 1) (m + 1) = _
  simp only [natDigitsFuel]
  rw [natDigitsFuel_irrel ((m + 1) / 10) m ((m + 1) / 10) (by omega) (by omega)]

/-- Only zero has an empty digit list. -/
lemma natDigits_eq_nil_iff {m : Nat} : natDigits m = [] ↔ m = 0 := by
  cases m with
  | zero => simp [natDigits, natDigitsFuel]
  | succ m' => simp [natDigits_succ]

/-- Injectivity of appending a final element. -/
lemma list_concat_inj {l₁ l₂ : List Char} {a b : Char}
    (h : l₁ ++ [a] = l₂ ++ [b]) : l₁ = l₂ ∧ a = b := by
  have hlen : l₁.length = l₂.length := by
    have := congrArg List.length h
    simpa using this
  have := List.append_inj h hlen
  simpa using this

/-- Digit lists determine the number. -/
lemma natDigits_inj : ∀ {a b : Nat}, natDigits a = natDigits b → a = b := by
  intro a
  induction a using Nat.strong_induction_on with
  | _ a ih =>
    intro b h
    match a, b with
    | 0, 0 => rfl
    | 0, b' + 1 =>
      rw [natDigits_succ] at h
      simp [natDigits, natDigitsFuel] at h
    | a' + 1, 0 =>
      rw [natDigits_succ] at h
      simp [natDigits, natDigitsFuel] at h
    | a' + 1, b' + 1 =>
      rw [natDigits_succ, natDigits_succ] at h
      obtain ⟨hdiv, hmod⟩ := list_concat_inj h
      have h1 := ih ((a' + 1) / 10) (by omega) hdiv
      have h2 := digitChar_inj (by omega) (by omega) hmod
      omega

/-- The decimal rendering is never the empty string. -/
lemma natDecimal_ne_empty (n : Nat) : natDecimal n ≠ "" := by
  unfold natDecimal
  split
  · decide
  · rename_i h
    intro hc
    have := congrArg String.data hc
    simp at this
    exact h (natDigits_eq_nil_iff.mp this)

/-- The decimal rendering is injective. -/
lemma natDecimal_inj : Function.Injective natDecimal := by
  intro a b h
  unfold natDecimal at h
  by_cases ha : a = 0 <;> by_cases hb : b = 0
  · omega
  · rw [if_pos ha, if_neg hb] at h
    have hd := congrArg String.data h
    simp at hd
    obtain ⟨m, rfl⟩ : ∃ m, b = m + 1 := ⟨b - 1, by omega⟩
    rw [natDigits_succ] at hd
    have h0 : ([] : List Char) ++ ['0'] =
        natDigits ((m + 1) / 10) ++ [digitChar ((m + 1) % 10)] := by simpa using hd
    obtain ⟨hdiv, hmod⟩ := list_concat_inj h0
    have hb0 := natDigits_eq_nil_iff.mp hdiv.symm
    have hm := digitChar_inj (a := 0) (b := (m + 1) % 10) (by omega) (by omega)
      (by simpa using hmod)
    omega
  · rw [if_neg ha, if_pos hb] at h
    have hd := congrArg String.data h
    simp at hd
    obtain ⟨m, rfl⟩ : ∃ m, a = m + 1 := ⟨a - 1, by omega⟩
    rw [natDigits_succ] at hd
    have h0 : natDigits ((m + 1) / 10) ++ [digitChar ((m + 1) % 10)] =
        ([] : List Char) ++ ['0'] := by simpa using hd
    obtain ⟨hdiv, hmod⟩ := list_concat_inj h0
    have hb0 := natDigits_eq_nil_iff.mp hdiv
    have hm := digitChar_inj (a := (m + 1) % 10) (b := 0) (by omega) (by omega)
      (by simpa using hmod)
    omega
  · rw [if_neg ha, if_neg hb] at h
    have hd := congrArg String.data h
    simp at hd
    exact natDigits_inj hd

/-- Appending a non-empty string changes a string. -/
lemma append_ne_self {s t : String} (h : t ≠ "") : s ++ t ≠ s := by
  intro hc
  apply h
  apply string_ext
  have hd := congrArg String.data hc
  rw [String.data_append] at hd
  have hlen := congrArg List.length hd
  simp at hlen
  simp [List.length_eq_zero.mp hlen]

/-- Left cancellation for string append. -/
lemma string_append_right_inj {s t u : String} (h : s ++ t = s ++ u) : t = u := by
  apply string_ext
  have hd := congrArg String.data h
  simpa [String.data_append] using hd

/-- A suffixed collision candidate never equals the base name. -/
lemma suffixCandidate_ne_base (base : String) (c : Nat) :
    suffixCandidate base c ≠ base := by
  unfold suffixCandidate
  rw [String.append_assoc]
  apply append_ne_self
  intro hc
  have := congrArg String.data hc
  simp [String.data_append] at this

/-- Distinct counters give distinct collision candidates. -/
lemma suffixCandidate_inj (base : String) {c d : Nat}
    (h : suffixCandidate base c = suffixCandidate base d) : c = d := by
  unfold suffixCandidate at h
  rw [String.append_assoc, String.append_assoc] at h
  exact natDecimal_inj (string_append_right_inj (string_append_right_inj h))

/-- If some candidate within the fuel is free, the collision loop
returns a name not among the used ones. -/
lemma resolveLoop_not_mem (base : String) (used : List String) :
    ∀ fuel count, (∃ j, j < fuel ∧ suffixCandidate base (count + j) ∉ used) →
    resolveLoop base used count fuel ∉ used := by
  intro fuel
  induction fuel with
  | zero =>
    intro count ⟨j, hj, _⟩
    omega
  | succ f ih =>
    intro count ⟨j, hj, hfree⟩
    unfold resolveLoop
    by_cases hc : suffixCandidate base count ∈ used
    · rw [if_pos hc]
      apply ih
      have hj0 : j ≠ 0 := by
        rintro rfl
        rw [Nat.add_zero] at hfree
        exact hfree hc
      refine ⟨j - 1, by omega, ?_⟩
      have harith : count + 1 + (j - 1) = count + j := by omega
      rw [harith]
      exact hfree
    · rw [if_neg hc]
      exact hc

/-- Pigeonhole: among `used.length + 1` distinct candidates, one is not
in `used`. -/
lemma exists_free_candidate (base : String) (used : List String) :
    ∃ j, j < used.length + 1 ∧ suffixCandidate base (1 + j) ∉ used := by
  by_contra hall
  push_neg at hall
  have hinj : Function.Injective (fun j : Nat => suffixCandidate base (1 + j)) := by
    intro x y hxy
    have := suffixCandidate_inj base hxy
    omega
  have hnodup : ((List.range (used.length + 1)).map
      (fun j => suffixCandidate base (1 + j))).Nodup :=
    (List.nodup_range _).map hinj
  have hsub : ((List.range (used.length + 1)).map
      (fun j => suffixCandidate base (1 + j))) ⊆ used := by
    intro x hx
    simp only [List.mem_map, List.mem_range] at hx
    obtain ⟨j, hj, rfl⟩ := hx
    exact hall j hj
  have hle := (List.subperm_of_subset hnodup hsub).length_le
  simp at hle

/-- The resolved method-name part is never among the already-generated
names. -/
lemma resolveName_not_mem (base : String) (used : List String) :
    resolveName base used ∉ used := by
  unfold resolveName
  split
  · exact resolveLoop_not_mem base used (used.length + 1) 1
      (exists_free_candidate base used)
  · rename_i h
    exact h

/-- All name parts assigned by the POM loop are pairwise distinct and
avoid the initially used names. -/
lemma pomProcess_names_nodup : ∀ (ls : List Locator) (used : List String),
    ((pomProcess ls used).map Prod.fst).Nodup ∧
    ∀ n ∈ (pomProcess ls used).map Prod.fst, n ∉ used := by
  intro ls
  induction ls with
  | nil =>
    intro used
    simp [pomProcess]
  | cons l rest ih =>
    intro used
    simp only [pomProcess, List.map_cons]
    obtain ⟨ihn, ihm⟩ := ih
      (resolveName (sanitize_identifier_for_method_name l.identifier l.category) used
        :: used)
    refine ⟨List.nodup_cons.mpr ⟨?_, ihn⟩, ?_⟩
    · intro hmem
      exact ihm _ hmem (by simp)
    · intro n hn
      rcases List.mem_cons.mp hn with rfl | hn'
      · exact resolveName_not_mem _ _
      · intro hnu
        exact ihm n hn' (by simp [hnu])

/-- With no used names, the base name is kept. -/
lemma resolveName_nil (base : String) : resolveName base [] = base := by
  simp [resolveName]

/-- `f"{base}_{1}"` is `base ++ "_1"`. -/
lemma suffixCandidate_one (base : String) : suffixCandidate base 1 = base ++ "_1" := by
  unfold suffixCandidate
  rw [String.append_assoc, show natDecimal 1 = "1" from by decide]
  rfl

/-- `f"{base}_{2}"` is `base ++ "_2"`. -/
lemma suffixCandidate_two (base : String) : suffixCandidate base 2 = base ++ "_2" := by
  unfold suffixCandidate
  rw [String.append_assoc, show natDecimal 2 = "2" from by decide]
  rfl

/-- A collision with one used copy of the base resolves to `base_1`. -/
lemma resolveName_single (base : String) :
    resolveName base [base] = base ++ "_1" := by
  have h1 : suffixCandidate base 1 ≠ base := suffixCandidate_ne_base base 1
  have h1' : base ++ "_1" ≠ base := by
    rw [← suffixCandidate_one]
    exact h1
  simp [resolveName, resolveLoop, h1, h1', suffixCandidate_one]

/-- A collision with `base` and `base_1` used resolves to `base_2`. -/
lemma resolveName_pair (base : String) :
    resolveName base [base ++ "_1", base] = base ++ "_2" := by
  have h1 : suffixCandidate base 1 = base ++ "_1" := suffixCandidate_one base
  have h2 : suffixCandidate base 2 ≠ base := suffixCandidate_ne_base base 2
  have h3 : suffixCandidate base 2 ≠ base ++ "_1" := by
    rw [suffixCandidate_two]
    intro hc
    have := string_append_right_inj hc
    have hd := congrArg String.data this
    simp at hd
  have h2' : base ++ "_2" ≠ base := by
    rw [← suffixCandidate_two]
    exact h2
  have h3' : base ++ "_2" ≠ base ++ "_1" := by
    rw [← suffixCandidate_two]
    exact h3
  simp [resolveName, resolveLoop, h1, h2, h3, h2', h3', suffixCandidate_two]

/-- C6: given two (or three) usable records whose identifiers sanitize
to the same base name, the Accessor Generation Stage assigns distinct
method-name parts: the second is the base suffixed `_1`, the third the
base suffixed `_2`; and for every record list the assigned name parts
are pairwise distinct. -/
theorem accessor_name_collision_uniqueness :
    (∀ l1 l2 : Locator,
      sanitize_identifier_for_method_name l2.identifier l2.category =
        sanitize_identifier_for_method_name l1.identifier l1.category →
      assignedNameParts [l1, l2] =
        [sanitize_identifier_for_method_name l1.identifier l1.category,
         sanitize_identifier_for_method_name l1.identifier l1.category ++ "_1"] ∧
      sanitize_identifier_for_method_name l1.identifier l1.category ≠
        sanitize_identifier_for_method_name l1.identifier l1.category ++ "_1") ∧
    (∀ l1 l2 l3 : Locator,
      sanitize_identifier_for_method_name l2.identifier l2.category =
        sanitize_identifier_for_method_name l1.identifier l1.category →
      sanitize_identifier_for_method_name l3.identifier l3.category =
        sanitize_identifier_for_method_name l1.identifier l1.category →
      assignedNameParts [l1, l2, l3] =
        [sanitize_identifier_for_method_name l1.identifier l1.category,
         sanitize_identifier_for_method_name l1.identifier l1.category ++ "_1",
         sanitize_identifier_for_method_name l1.identifier l1.category ++ "_2"]) ∧
    (∀ ls : List Locator, (assignedNameParts ls).Nodup) := by
  refine ⟨?_, ?_, ?_⟩
  · intro l1 l2 h
    constructor
    · simp only [assignedNameParts, pomProcess, List.map_cons, List.map_nil]
      rw [h, resolveName_nil, resolveName_single]
    · intro hc
      exact append_ne_self (t := "_1") (by decide) hc.symm
  · intro l1 l2 l3 h2 h3
    simp only [assignedNameParts, pomProcess, List.map_cons, List.map_nil]
    rw [h2, h3, resolveName_nil, resolveName_single, resolveName_pair]
  · intro ls
    exact (pomProcess_names_nodup ls []).1

/-- Witness for `accessor_name_collision_uniqueness`: the identifiers
`"Email!"` and `"email "` both sanitize to `email`; the stage assigns
`email` and `email_1`. -/
theorem accessor_name_collision_witness :
    assignedNameParts
      [⟨"Email!", "input_field", "//a", "c"⟩, ⟨"email ", "input_field", "//b", "d"⟩] =
      ["email", "email_1"] ∧ ("email" : String) ≠ "email_1" := by
  have h := accessor_name_collision_uniqueness.1
    ⟨"Email!", "input_field", "//a", "c"⟩ ⟨"email ", "input_field", "//b", "d"⟩
    (by decide)
  constructor
  · rw [h.1]
    decide
  · decide


/-- `String.mk cs` is the empty string exactly when `cs` is empty. -/
lemma string_mk_eq_empty_iff {cs : List Char} : String.mk cs = "" ↔ cs = [] := by
  constructor
  · intro h
    exact congrArg String.data h
  · intro h
    subst h
    rfl

/-- A map that fixes every member fixes the list. -/
lemma list_map_self {f : Char → Char} {cs : List Char}
    (h : ∀ c ∈ cs, f c = c) : cs.map f = cs := by
  induction cs with
  | nil => rfl
  | cons a t ih => simp [h a (by simp), ih fun c hc => h c (by simp [hc])]

/-- The head surviving `dropWhile p` fails `p`. -/
lemma dropWhile_head?_false {p : Char → Bool} :
    ∀ {l : List Char} {c : Char}, (l.dropWhile p).head? = some c → p c = false := by
  intro l
  induction l with
  | nil => intro c h; simp at h
  | cons a t ih =>
    intro c h
    rw [List.dropWhile_cons] at h
    by_cases ha : p a
    · rw [if_pos ha] at h
      exact ih h
    · rw [if_neg ha] at h
      injection h with h2
      subst h2
      exact Bool.not_eq_true _ ▸ (by simpa using ha)

/-- `dropWhile` keeps the last element of the list (when anything
survives). -/
lemma getLast?_dropWhile {p : Char → Bool} :
    ∀ {l : List Char}, l.dropWhile p ≠ [] → (l.dropWhile p).getLast? = l.getLast? := by
  intro l
  induction l with
  | nil => intro h; simp at h
  | cons a t ih =>
    intro h
    rw [List.dropWhile_cons]
    by_cases ha : p a
    · rw [List.dropWhile_cons, if_pos ha] at h
      have ht : t ≠ [] := by
        intro hc
        subst hc
        simp at h
      rw [if_pos ha, ih h]
      exact (getLast?_append_right ht (A := [a])).symm
    · rw [if_neg ha]

/-- `head?` of an append with non-empty left part. -/
lemma head?_append_left {A B : List Char} (h : A ≠ []) :
    (A ++ B).head? = A.head? := by
  cases A with
  | nil => exact absurd rfl h
  | cons a t => simp

/-- Sanitizer-charset characters are fixed by `pyLower`. -/
lemma pyLower_fix {c : Char} (h : isSanChar c = true) : pyLower c = c := by
  unfold pyLower
  rw [if_neg]
  simp only [isSanChar, decide_eq_true_eq] at h
  rcases h with h | h | h
  · omega
  · omega
  · subst h
    decide

/-- Sanitizer-charset characters are word characters. -/
lemma san_imp_word {c : Char} (h : isSanChar c = true) : isWordChar c = true := by
  simp only [isSanChar, decide_eq_true_eq] at h
  simp only [isWordChar, decide_eq_true_eq]
  rcases h with h | h | h
  · omega
  · omega
  · simp [h]

/-- A word character in the image of `pyLower` is in the sanitizer's
charset. -/
lemma word_pyLower_san {c : Char} (h : isWordChar (pyLower c) = true) :
    isSanChar (pyLower c) = true := by
  unfold pyLower at h ⊢
  by_cases hc : 65 ≤ c.toNat ∧ c.toNat ≤ 90
  · rw [if_pos hc] at h ⊢
    simp only [isSanChar, decide_eq_true_eq]
    left
    rw [char_toNat_ofNat_lt (by omega)]
    omega
  · rw [if_neg hc] at h ⊢
    simp only [isWordChar, decide_eq_true_eq] at h
    simp only [isSanChar, decide_eq_true_eq]
    rcases h with h | h | h | h
    · left; omega
    · omega
    · right; left; omega
    · simp [h]

/-- Characters of `collapseAux` are underscores or word characters of
the input. -/
lemma mem_collapseAux :
    ∀ (cs : List Char) (b : Bool) (c : Char), c ∈ collapseAux b cs →
      c = '_' ∨ (c ∈ cs ∧ isWordChar c = true) := by
  intro cs
  induction cs with
  | nil => intro b c h; simp [collapseAux] at h
  | cons a t ih =>
    intro b c h
    unfold collapseAux at h
    by_cases ha : isWordChar a
    · rw [if_pos ha] at h
      rcases List.mem_cons.mp h with rfl | h'
      · right; exact ⟨by simp, ha⟩
      · rcases ih false c h' with h2 | ⟨h2, h3⟩
        · left; exact h2
        · right; exact ⟨by simp [h2], h3⟩
    · rw [if_neg ha] at h
      by_cases hb : b
      · subst hb
        simp only [if_true] at h
        rcases ih true c h with h2 | ⟨h2, h3⟩
        · left; exact h2
        · right; exact ⟨by simp [h2], h3⟩
      · simp only [hb, if_false] at h
        rcases List.mem_cons.mp h with rfl | h'
        · left; rfl
        · rcases ih true c h' with h2 | ⟨h2, h3⟩
          · left; exact h2
          · right; exact ⟨by simp [h2], h3⟩

/-- On a list of word characters the collapse is the identity. -/
lemma collapseAux_all_word :
    ∀ (cs : List Char) (b : Bool), (∀ c ∈ cs, isWordChar c = true) →
      collapseAux b cs = cs := by
  intro cs
  induction cs with
  | nil => intro b _; rfl
  | cons a t ih =>
    intro b h
    unfold collapseAux
    rw [if_pos (h a (by simp)), ih false fun c hc => h c (by simp [hc])]

/-- `stripWhile` only keeps characters of the input. -/
lemma mem_stripWhile {p : Char → Bool} {cs : List Char} {c : Char}
    (h : c ∈ stripWhile p cs) : c ∈ cs := by
  unfold stripWhile at h
  have h1 := (List.dropWhile_sublist p).subset h
  rw [List.mem_reverse] at h1
  have h2 := (List.dropWhile_sublist p).subset h1
  rwa [List.mem_reverse] at h2

/-- The head of a stripped list fails the predicate. -/
lemma stripWhile_head_not {p : Char → Bool} {cs : List Char} {hd : Char}
    (h : (stripWhile p cs).head? = some hd) : p hd = false := by
  exact dropWhile_head?_false h

/-- The last element of a stripped list fails the predicate. -/
lemma stripWhile_getLast_not {p : Char → Bool} {cs : List Char} {lt : Char}
    (h : (stripWhile p cs).getLast? = some lt) : p lt = false := by
  unfold stripWhile at h
  have hne : ((cs.reverse.dropWhile p).reverse).dropWhile p ≠ [] := by
    intro hc
    rw [hc] at h
    simp at h
  rw [getLast?_dropWhile hne, List.getLast?_reverse] at h
  exact dropWhile_head?_false h

/-- Shape of every sanitizer output (default fallback category): either
the fallback `unnamed_element`, or a non-empty underscore-stripped list
over the sanitizer charset, optionally prefixed with the enforced `_`
when its first character is a digit. -/
lemma sanitize_shape (s : String) :
    sanitize s = "unnamed_element" ∨
    ∃ cs : List Char, cs ≠ [] ∧ (∀ c ∈ cs, isSanChar c = true) ∧
      (∀ hd, cs.head? = some hd → hd ≠ '_') ∧
      (∀ lt, cs.getLast? = some lt → lt ≠ '_') ∧
      ((¬(cs.headD ' ').isDigit ∧ sanitize s = String.mk cs) ∨
       ((cs.headD ' ').isDigit ∧ sanitize s = String.mk ('_' :: cs))) := by
  by_cases hs : s = ""
  · left
    subst hs
    decide
  · unfold sanitize sanitize_identifier_for_method_name
    rw [if_neg hs]
    dsimp only
    by_cases h2 : stripWhile (fun c => c = '_') (collapseNonWord (s.data.map pyLower)) = []
    · left
      rw [if_pos h2]
      decide
    · right
      refine ⟨stripWhile (fun c => c = '_') (collapseNonWord (s.data.map pyLower)),
        h2, ?_, ?_, ?_, ?_⟩
      · intro c hc
        have hmem := mem_stripWhile hc
        rcases mem_collapseAux _ false c hmem with rfl | ⟨hcm, hword⟩
        · decide
        · obtain ⟨c0, _, rfl⟩ := List.mem_map.mp hcm
          exact word_pyLower_san hword
      · intro hd hh
        have := stripWhile_head_not hh
        simpa using this
      · intro lt hl
        have := stripWhile_getLast_not hl
        simpa using this
      · rw [if_neg h2]
        by_cases hd : ((stripWhile (fun c => c = '_')
            (collapseNonWord (s.data.map pyLower))).headD ' ').isDigit
        · right
          rw [if_pos hd]
          exact ⟨hd, rfl⟩
        · left
          rw [if_neg hd]
          exact ⟨hd, rfl⟩

/-- A non-empty charset list with no underscore at either end and a
non-digit head is a fixed point of the sanitizer. -/
lemma sanitize_of_clean (cs : List Char) (hne : cs ≠ [])
    (hchars : ∀ c ∈ cs, isSanChar c = true)
    (hh : ∀ hd, cs.head? = some hd → hd ≠ '_')
    (hl : ∀ lt, cs.getLast? = some lt → lt ≠ '_')
    (hdig : ¬(cs.headD ' ').isDigit) :
    sanitize (String.mk cs) = String.mk cs := by
  unfold sanitize sanitize_identifier_for_method_name
  rw [if_neg (by simpa [string_mk_eq_empty_iff] using hne)]
  dsimp only
  have hmap : (String.mk cs).data.map pyLower = cs :=
    list_map_self fun c hc => pyLower_fix (hchars c hc)
  have hcol : collapseNonWord cs = cs :=
    collapseAux_all_word cs false fun c hc => san_imp_word (hchars c hc)
  have hstr : stripWhile (fun c => c = '_') cs = cs := by
    apply stripWhile_eq_self
    · intro hd h
      simpa using hh hd h
    · intro lt h
      simpa using hl lt h
  simp only [hmap, hcol, hstr, if_neg hne, if_neg hdig]

/-- The enforced-underscore form (`'_'` before a digit-headed clean
list) is a fixed point of the sanitizer. -/
lemma sanitize_of_clean_digit (cs : List Char) (hne : cs ≠ [])
    (hchars : ∀ c ∈ cs, isSanChar c = true)
    (hl : ∀ lt, cs.getLast? = some lt → lt ≠ '_')
    (hdig : (cs.headD ' ').isDigit) :
    sanitize (String.mk ('_' :: cs)) = String.mk ('_' :: cs) := by
  unfold sanitize sanitize_identifier_for_method_name
  rw [if_neg (by simp [string_mk_eq_empty_iff])]
  dsimp only
  have hhd : ∀ hd, cs.head? = some hd → hd ≠ '_' := by
    intro hd h
    cases cs with
    | nil => simp at h
    | cons a t =>
      injection h with h2
      subst h2
      simp only [List.headD_cons] at hdig
      intro hc
      subst hc
      simp at hdig
  have hmap : (String.mk ('_' :: cs)).data.map pyLower = '_' :: cs := by
    refine list_map_self ?_
    intro c hc
    rcases List.mem_cons.mp hc with rfl | hc'
    · decide
    · exact pyLower_fix (hchars c hc')
  have hcol : collapseNonWord ('_' :: cs) = '_' :: cs := by
    refine collapseAux_all_word _ false ?_
    intro c hc
    rcases List.mem_cons.mp hc with rfl | hc'
    · decide
    · exact san_imp_word (hchars c hc')
  have hstr : stripWhile (fun c => c = '_') ('_' :: cs) = cs := by
    unfold stripWhile
    have hrev : ('_' :: cs).reverse = cs.reverse ++ ['_'] := by simp
    rw [hrev]
    have hrevne : cs.reverse ≠ [] := by simpa using hne
    have hdw : (cs.reverse ++ ['_']).dropWhile (fun c => c = '_') =
        cs.reverse ++ ['_'] := by
      apply dropWhile_eq_self_of_head
      intro hd h
      rw [head?_append_left hrevne, List.head?_reverse] at h
      simpa using hl hd h
    rw [hdw]
    have : (cs.reverse ++ ['_']).reverse = '_' :: cs := by simp
    rw [this, List.dropWhile_cons]
    rw [if_pos (by decide)]
    apply dropWhile_eq_self_of_head
    intro hd h
    simpa using hhd hd h
  simp only [hmap, hcol, hstr, if_neg hne, if_pos hdig]

/-- C2: with its default fallback category, the identifier sanitizer is
idempotent: `sanitize(sanitize(s)) = sanitize(s)` for every input
string `s`. -/
theorem sanitize_idempotent (s : String) :
    sanitize (sanitize s) = sanitize s := by
  rcases sanitize_shape s with h | ⟨cs, hne, hchars, hh, hl, hcase⟩
  · rw [h]
    decide
  · rcases hcase with ⟨hdig, heq⟩ | ⟨hdig, heq⟩
    · rw [heq]
      exact sanitize_of_clean cs hne hchars hh hl hdig
    · rw [heq]
      exact sanitize_of_clean_digit cs hne hchars hl hdig

/-- Instantiating the parametric sanitizer's collapse at the ASCII word
class recovers the ASCII model's collapse. -/
lemma collapseAuxWith_ascii : ∀ (b : Bool) (cs : List Char),
    collapseAuxWith isWordChar b cs = collapseAux b cs := by
  intro b cs
  induction cs generalizing b with
  | nil => rfl
  | cons a t ih =>
    unfold collapseAuxWith collapseAux
    by_cases ha : isWordChar a
    · rw [if_pos ha, if_pos ha, ih false]
    · rw [if_neg ha, if_neg ha]
      by_cases hb : b
      · subst hb
        simp only [if_true, ih true]
      · simp only [hb, if_false, ih true]

/-- Instantiating the parametric sanitizer at the ASCII word class and
ASCII lower-casing recovers the embedding of `utils.py`. -/
lemma sanitizeWith_ascii (raw category : String) :
    sanitizeWith isWordChar pyLower raw category =
      sanitize_identifier_for_method_name raw category := by
  unfold sanitizeWith sanitize_identifier_for_method_name
  have hfb : fallbackNameWith pyLower category = fallbackName category := rfl
  rw [hfb, collapseAuxWith_ascii]
  rfl

/-- C3 counterexample: on the input `"café"` the program's sanitizer
returns `"café"` — Python's Unicode-aware `\w` classifies `'é'` as a
word character, so `re.sub(r'\W+', '_', …)` keeps it, `str.lower`
fixes every character of the input, and no strip/prefix step fires.
The parametric embedding, instantiated at a word classifier that
agrees with Python's on every character of this input (and at
`pyLower`, which agrees with `str.lower` there), computes exactly
that; the output contains `'é'`, which is outside `[a-z0-9_]`, so the
output does not match the claimed `^_?[a-z0-9_]+$`. -/
theorem sanitizer_totality_fails_on_unicode :
    sanitizeWith wordCharWithEacute pyLower "café" "element" = "café" ∧
    ¬(∀ c ∈ (sanitizeWith wordCharWithEacute pyLower "café" "element").data,
      isSanChar c = true) := by
  exact ⟨by decide, by decide⟩

/-- C3 (amended): for every input string of ASCII characters (including
the empty and pure-digit strings) — the fragment on which the ASCII
model agrees with Python's `\w`, `str.lower` and `str.isdigit`
character for character — the sanitizer's output, with the default
fallback category, is a non-empty string matching `^_?[a-z0-9_]+$`:
all characters are ASCII lower-case letters, digits or underscores; it
never starts with a digit; it never ends with an underscore; and it
starts with an underscore only as the enforced prefix of a digit.  For
non-ASCII inputs the guarantee fails (`sanitizer_totality_fails_on_unicode`). -/
theorem sanitizer_totality_ascii (s : String)
    (_hascii : ∀ c ∈ s.data, c.toNat ≤ 127) :
    sanitize s ≠ "" ∧
    (∀ c ∈ (sanitize s).data, isSanChar c = true) ∧
    ¬((sanitize s).data.headD ' ').isDigit ∧
    (∀ lt, (sanitize s).data.getLast? = some lt → lt ≠ '_') ∧
    ((sanitize s).data.headD ' ' = '_' →
      ((sanitize s).data.tail.headD ' ').isDigit) := by
  rcases sanitize_shape s with h | ⟨cs, hne, hchars, hh, hl, hcase⟩
  · rw [h]
    refine ⟨by decide, by decide, by decide, ?_, by decide⟩
    intro lt hlt
    have : lt = 't' := by
      have : ("unnamed_element".data.getLast?) = some 't' := by decide
      rw [this] at hlt
      injection hlt with h2
      exact h2.symm
    subst this
    decide
  · obtain ⟨a, t, rfl⟩ : ∃ a t, cs = a :: t := by
      cases cs with
      | nil => exact absurd rfl hne
      | cons a t => exact ⟨a, t, rfl⟩
    rcases hcase with ⟨hdig, heq⟩ | ⟨hdig, heq⟩
    · rw [heq]
      refine ⟨by simp [string_mk_eq_empty_iff], hchars, hdig, hl, ?_⟩
      intro hc
      simp only [List.headD_cons] at hc
      exact absurd hc (hh a rfl)
    · rw [heq]
      refine ⟨by simp [string_mk_eq_empty_iff], ?_,
        by show ¬('_'.isDigit = true); decide, ?_, ?_⟩
      · intro c hcm
        rcases List.mem_cons.mp hcm with rfl | hcm'
        · decide
        · exact hchars c hcm'
      · intro lt hlt
        rw [show ('_' :: a :: t).getLast? = (a :: t).getLast? from
          getLast?_append_right (by simp) (A := ['_'])] at hlt
        exact hl lt hlt
      · intro _
        simpa using hdig

/-- Witness for `sanitizer_totality_ascii` at the ASCII input
`"42 Apples!"`. -/
theorem sanitizer_totality_ascii_witness :
    sanitize "42 Apples!" ≠ "" ∧
    (∀ c ∈ (sanitize "42 Apples!").data, isSanChar c = true) ∧
    ¬((sanitize "42 Apples!").data.headD ' ').isDigit ∧
    (∀ lt, (sanitize "42 Apples!").data.getLast? = some lt → lt ≠ '_') ∧
    ((sanitize "42 Apples!").data.headD ' ' = '_' →
      ((sanitize "42 Apples!").data.tail.headD ' ').isDigit) :=
  sanitizer_totality_ascii "42 Apples!" (by decide)

end TestAutomation
